import Mathlib

/-!
Verification of the query-and-aggregation layer of `controllers/utils.js`
(chunked full-text queries, domain queries, enrichment joins and derived
clinical metrics).

Modelling conventions:
- Instants (moment timestamps) are integers counting minutes since the Unix
  epoch, UTC.  `moment#zone(0).format('YYYY-MM-DD')` becomes floor division
  by 1440 followed by a civil-date rendering.
- The external full-text engine (`db.fti('data_records', ...)`) is a function
  parameter from the issued query options to either an error or an optional
  raw response (`null` response = `none`; a response with no `rows` field has
  `rows = none`).  Per the boundary contract a non-null response always
  carries `total_rows`.
- Every operation returns, besides its result, the ordered list of queries it
  issued to the engine, so that "no engine call" and "exactly k chunk
  queries" are statable.
- The mutable module variable `luceneConditionalLimit` (default 1000,
  overridable via `setup`) is passed as an explicit parameter `L`.
- JS objects that may lack a boolean field (`high_risk`) use `Option Bool`;
  a field read on a plain array (`risks.rows` when risks is `[]`) yields
  `undefined`, over which `_.each` is a no-op, modelled by an empty row list.
-/

namespace ChtQuery

/-- Equality of engine outcomes is decidable, so witnesses can be checked
by evaluation. -/
instance {ε α : Type} [DecidableEq ε] [DecidableEq α] : DecidableEq (Except ε α) :=
  fun a b =>
    match a, b with
    | Except.error x, Except.error y =>
      if h : x = y then Decidable.isTrue (by rw [h])
      else Decidable.isFalse (fun hh => h (Except.error.inj hh))
    | Except.ok x, Except.ok y =>
      if h : x = y then Decidable.isTrue (by rw [h])
      else Decidable.isFalse (fun hh => h (Except.ok.inj hh))
    | Except.error _, Except.ok _ => Decidable.isFalse (fun hh => Except.noConfusion hh)
    | Except.ok _, Except.error _ => Decidable.isFalse (fun hh => Except.noConfusion hh)

/-- A document carried by a search row; the joins only read `patient_id`. -/
structure Doc where
  patient_id : String
deriving DecidableEq, Repr

/-- One row of an engine response. -/
structure Row where
  doc : Doc
deriving DecidableEq, Repr

/-- The query options `fti` forwards to `db.fti('data_records', ...)`. -/
structure EngineQuery where
  q : String
  sort : Option String
  include_docs : Bool
  limit : Option Nat
deriving DecidableEq, Repr

/-- A raw engine response: `rows = none` models a response object with no
`rows` field. -/
structure RawResult where
  total_rows : Nat
  rows : Option (List Row)
deriving DecidableEq, Repr

/-- The normalized result shape callers observe: both fields always
present. -/
structure SearchResult where
  total_rows : Nat
  rows : List Row
deriving DecidableEq, Repr

/-- The external engine: `.error` = failed call, `.ok none` = absent/null
response, `.ok (some raw)` = a response object. -/
def Engine : Type := EngineQuery → Except String (Option RawResult)

/-- Options accepted by the executor and the domain query library.  Dates
are instants in minutes since the epoch. -/
structure QueryOptions where
  q : String := ""
  sort : Option String := none
  include_docs : Bool := false
  limit : Option Nat := none
  patientIds : Option (List String) := none
  startDate : Option Int := none
  endDate : Option Int := none
  district : Option String := none
deriving DecidableEq, Repr

/-- `formatDate`: `date.zone(0).format('YYYY-MM-DD')`.  The UTC day of an
instant in minutes is its floor quotient by 1440 (Lean integer `/` with a
positive divisor is floor division). -/
def utcDay (t : Int) : Int := t / 1440

/-- Civil date (year, month, day) from a day number counted from 1970-01-01
(proleptic Gregorian), the standard days-to-civil conversion. -/
def civilFromDays (z0 : Int) : Int × Int × Int :=
  let z := z0 + 719468
  let era := z.fdiv 146097
  let doe := z - era * 146097
  let yoe := (doe - doe / 1460 + doe / 36524 - doe / 146096) / 365
  let y := yoe + era * 400
  let doy := doe - (365 * yoe + yoe / 4 - yoe / 100)
  let mp := (5 * doy + 2) / 153
  let d := doy - (153 * mp + 2) / 5 + 1
  let m := mp + (if mp < 10 then 3 else -9)
  (if m ≤ 2 then y + 1 else y, m, d)

/-- Day number counted from 1970-01-01 of a civil date. -/
def daysFromCivil (y m d : Int) : Int :=
  let yy := if m ≤ 2 then y - 1 else y
  let era := yy.fdiv 400
  let yoe := yy - era * 400
  let mp := m + (if m > 2 then -3 else 9)
  let doy := (153 * mp + 2) / 5 + d - 1
  let doe := yoe * 365 + yoe / 4 - yoe / 100 + doy
  era * 146097 + doe - 719468

def pad2 (n : Int) : String := if n < 10 then "0" ++ toString n else toString n

def pad4 (n : Int) : String :=
  if n < 10 then "000" ++ toString n
  else if n < 100 then "00" ++ toString n
  else if n < 1000 then "0" ++ toString n
  else toString n

/-- Render a day number as `YYYY-MM-DD`. -/
def dayString (z : Int) : String :=
  let c := civilFromDays z
  pad4 c.1 ++ "-" ++ pad2 c.2.1 ++ "-" ++ pad2 c.2.2

/-- `formatDate(date)` of `controllers/utils.js`. -/
def formatDate (t : Int) : String := dayString (utcDay t)

/-- `formatDateRange(field, startDate, endDate)`: half-open-on-the-right
range fragment; the upper bound is the day after `endDate` (adding one day
= 1440 minutes before formatting). -/
def formatDateRange (field : String) (startDate endDate : Int) : String :=
  let s := formatDate startDate
  let e := formatDate (endDate + 1440)
  field ++ "<date>:[" ++ s ++ " TO " ++ e ++ "]"

/-- Structural worker for `chunk`: the fuel (first `Nat`) starts at the
list length and strictly dominates the number of loop iterations because
every iteration consumes at least one element when `size > 0`. -/
def chunkGo {α : Type} (size : Nat) : Nat → List α → List (List α)
  | _, [] => []
  | 0, _ :: _ => []
  | fuel + 1, a :: as =>
    (a :: as).take size :: chunkGo size fuel ((a :: as).drop size)

/-- `chunk(items, size)`: contiguous slices `[0,size), [size,2*size), ...`.
The JS loop does not terminate for `size = 0`; the executor only ever calls
it with the positive `luceneConditionalLimit`, so that case is mapped to
`[]`. -/
def chunk {α : Type} (items : List α) (size : Nat) : List (List α) :=
  if size = 0 then [] else chunkGo size items.length items

/-- The engine query `fti` builds from its options (dropping `patientIds`
and the date/district fields, which are not forwarded). -/
def ftiQuery (options : QueryOptions) : EngineQuery :=
  { q := options.q
    sort := options.sort
    include_docs := options.include_docs
    limit := options.limit }

/-- `fti(options, callback)`: one engine call; a null response becomes
`{total_rows: 0, rows: []}` and a response with no rows field gets
`rows = []`.  First component: the queries issued. -/
def fti (engine : Engine) (options : QueryOptions) :
    List EngineQuery × Except String SearchResult :=
  ([ftiQuery options],
   match engine (ftiQuery options) with
   | .error e => .error e
   | .ok none => .ok { total_rows := 0, rows := [] }
   | .ok (some raw) => .ok { total_rows := raw.total_rows, rows := raw.rows.getD [] })

/-- The per-chunk compound query options:
`<base q> AND patient_id:(<id1> OR <id2> OR ...)` with only `include_docs`
carried over. -/
def chunkQueryOptions (baseQ : String) (inc : Bool) (ids : List String) :
    QueryOptions :=
  { q := baseQ ++ " AND patient_id:(" ++ String.intercalate " OR " ids ++ ")"
    include_docs := inc }

/-- The sequential `async.reduce` over the chunks: each chunk issues one
`fti` call, folds rows by concatenation and `total_rows` by addition, and
aborts on the first error. -/
def runChunks (engine : Engine) (baseQ : String) (inc : Bool) :
    List (List String) → SearchResult → List EngineQuery × Except String SearchResult
  | [], memo => ([], .ok memo)
  | ids :: rest, memo =>
    let step := fti engine (chunkQueryOptions baseQ inc ids)
    match step.2 with
    | .error e => (step.1, .error e)
    | .ok result =>
      let next := runChunks engine baseQ inc rest
        { total_rows := memo.total_rows + result.total_rows
          rows := memo.rows ++ result.rows }
      (step.1 ++ next.1, next.2)

/-- `ftiWithPatientIds(options, callback)` with the (test-overridable)
`luceneConditionalLimit` made an explicit parameter `L` (default 1000 in the
source). -/
def ftiWithPatientIds (engine : Engine) (L : Nat) (options : QueryOptions) :
    List EngineQuery × Except String SearchResult :=
  match options.patientIds with
  | some pids =>
    if pids.length = 0 then ([], .ok { total_rows := 0, rows := [] })
    else runChunks engine options.q options.include_docs (chunk pids L)
      { total_rows := 0, rows := [] }
  | none => fti engine options

/-- The static form-code lookup (`config.get('anc_forms')[key]`), a
parameter: keys are logical form names such as "delivery", "visit",
"flag". -/
def FormCodes : Type := String → String

/-- `getDeliveries(options, callback)`: delivery form query with optional
reported-date range and district filters. -/
def getDeliveries (engine : Engine) (fc : FormCodes) (L : Nat)
    (options : QueryOptions) : List EngineQuery × Except String SearchResult :=
  let q0 := "form:" ++ fc "delivery"
  let q1 :=
    match options.startDate, options.endDate with
    | some s, some e => q0 ++ " AND " ++ formatDateRange "reported_date" s e
    | _, _ => q0
  let q2 :=
    match options.district with
    | some d => q1 ++ " AND district:\"" ++ d ++ "\""
    | none => q1
  ftiWithPatientIds engine L { options with q := q2 }

/-- A value passed to a domain-query callback: either a plain JS array (the
empty-filter short-circuit passes the array literal `[]`) or a result
object with `total_rows` and `rows`. -/
inductive FtiValue where
  | arr : List Row → FtiValue
  | res : SearchResult → FtiValue
deriving DecidableEq, Repr

/-- Reading `.rows` on an `FtiValue`: on a plain array the field is
undefined and `_.each(undefined, ...)` is a no-op, so it behaves as an
empty row list. -/
def rowsOf : FtiValue → List Row
  | .arr _ => []
  | .res r => r.rows

/-- The JS guard `!options || !options.patientIds || !options.patientIds.length`
shared by `getHighRisk` and `getVisits`. -/
def noPatientFilter : Option QueryOptions → Bool
  | none => true
  | some o =>
    match o.patientIds with
    | none => true
    | some [] => true
    | some (_ :: _) => false

/-- `getHighRisk(options, callback)`: flag-form query over the patient
filter; absent/empty filter short-circuits to the plain array `[]`. -/
def getHighRisk (engine : Engine) (fc : FormCodes) (L : Nat)
    (options : Option QueryOptions) : List EngineQuery × Except String FtiValue :=
  match options with
  | none => ([], .ok (.arr []))
  | some o =>
    match o.patientIds with
    | none => ([], .ok (.arr []))
    | some [] => ([], .ok (.arr []))
    | some (p :: ps) =>
      let call := ftiWithPatientIds engine L
        { o with patientIds := some (p :: ps), include_docs := true,
                 q := "form:" ++ fc "flag" }
      (call.1, call.2.map .res)

/-- `getVisits(options, callback)`: visit-form query; requires a non-empty
patient filter; an optional start date adds a reported-date range ending at
`endDate` or, if absent, two days after `now`. -/
def getVisits (engine : Engine) (fc : FormCodes) (L : Nat) (now : Int)
    (options : Option QueryOptions) : List EngineQuery × Except String FtiValue :=
  match options with
  | none => ([], .ok (.arr []))
  | some o =>
    match o.patientIds with
    | none => ([], .ok (.arr []))
    | some [] => ([], .ok (.arr []))
    | some (p :: ps) =>
      let q0 := "form:" ++ fc "visit"
      let q :=
        match o.startDate with
        | some s =>
          q0 ++ " AND " ++ formatDateRange "reported_date" s (o.endDate.getD (now + 2 * 1440))
        | none => q0
      let call := ftiWithPatientIds engine L
        { q := q, include_docs := true, patientIds := some (p :: ps) }
      (call.1, call.2.map .res)

/-- An entity fed to the enrichment operations: a patient identifier plus
the annotations the joins may write.  `high_risk = none` models the field
being absent on the JS object. -/
structure PatientObj where
  patient_id : String
  high_risk : Option Bool := none
  visits : Option Nat := none
deriving DecidableEq, Repr

/-- `rejectDeliveries(objects, callback)`: anti-join dropping every entity
whose identifier appears among the delivery rows fetched for the input
identifiers (`_.reject` with `_.some`); empty input short-circuits. -/
def rejectDeliveries (engine : Engine) (fc : FormCodes) (L : Nat)
    (objects : List PatientObj) : List EngineQuery × Except String (List PatientObj) :=
  if objects.length = 0 then ([], .ok [])
  else
    let call := getDeliveries engine fc L
      { patientIds := some (objects.map (fun o => o.patient_id)), include_docs := true }
    (call.1,
     match call.2 with
     | .error e => .error e
     | .ok deliveries =>
       .ok (objects.filter (fun o =>
         !(deliveries.rows.any (fun d => d.doc.patient_id == o.patient_id)))))

/-- `_.findWhere(objects, \x7bpatient_id: pid\x7d)` followed by
`object.high_risk = true`: mark the first entity with the given identifier,
leave everything else untouched. -/
def markFirst (pid : String) : List PatientObj → List PatientObj
  | [] => []
  | o :: os =>
    if o.patient_id = pid then { o with high_risk := some true } :: os
    else o :: markFirst pid os

/-- The `_.each(risks.rows, ...)` loop of `injectRisk`. -/
def applyRisks (rows : List Row) (objects : List PatientObj) : List PatientObj :=
  rows.foldl (fun objs risk => markFirst risk.doc.patient_id objs) objects

/-- `injectRisk(objects, callback)`. -/
def injectRisk (engine : Engine) (fc : FormCodes) (L : Nat)
    (objects : List PatientObj) : List EngineQuery × Except String (List PatientObj) :=
  let call := getHighRisk engine fc L
    (some { patientIds := some (objects.map (fun o => o.patient_id)) })
  (call.1,
   match call.2 with
   | .error e => .error e
   | .ok v => .ok (applyRisks (rowsOf v) objects))

/-- A clinical record as read by the derived-metric calculators. -/
structure RecordDoc where
  form : String
  reported_date : Int := 0
  lmp_date : Int := 0
deriving DecidableEq, Repr

/-- Result of `getWeeksPregnant`; a JS object without the `approximate`
field reads as falsy, modelled as `false`. -/
structure WeeksPregnant where
  number : Int
  approximate : Bool := false
deriving DecidableEq, Repr

/-- Result of `getEDD`; same convention for the absent `approximate`. -/
structure Edd where
  date : Int
  approximate : Bool := false
deriving DecidableEq, Repr

/-- `moment#diff(other, 'weeks')`: the elapsed whole weeks, truncated
toward zero (moment\x27s absFloor), over minute instants. -/
def diffWeeks (a b : Int) : Int := (a - b).tdiv 10080

/-- `getWeeksPregnant(doc)`, with the clock `moment()` passed as `now`. -/
def getWeeksPregnant (now : Int) (doc : RecordDoc) : WeeksPregnant :=
  if doc.form = "R" then
    { number := diffWeeks now doc.reported_date, approximate := true }
  else
    { number := diffWeeks now doc.lmp_date - 2 }

/-- `getEDD(doc)`: reported-date registrations get reported date + 40
weeks (approximate); LMP records get LMP date + 42 weeks. -/
def getEDD (doc : RecordDoc) : Edd :=
  if doc.form = "R" then
    { date := doc.reported_date + 40 * 10080, approximate := true }
  else
    { date := doc.lmp_date + 42 * 10080 }

/-! ### Concrete engines and inputs used by the witnesses -/

/-- A sample row used by concrete engines. -/
def sampleRow : Row := { doc := { patient_id := "x" } }

/-- An engine that answers every query with one row and a count of 1. -/
def okEngine : Engine :=
  fun _ => Except.ok (some { total_rows := 1, rows := some [sampleRow] })

/-- The per-chunk result delivered by `okEngine` through `fti`. -/
def okRes : List String → SearchResult := fun _ => { total_rows := 1, rows := [sampleRow] }

/-- An engine that fails exactly on the chunk query for patient id `b` and
answers everything else like `okEngine`. -/
def failBEngine : Engine :=
  fun q =>
    if q.q = "form:D AND patient_id:(b)" then Except.error "index error"
    else Except.ok (some { total_rows := 1, rows := some [sampleRow] })

/-- A delivery row for patient `A`. -/
def rowA : Row := { doc := { patient_id := "A" } }

/-- A delivery row for patient `B`. -/
def rowB : Row := { doc := { patient_id := "B" } }

/-- An engine that reports deliveries (or flags) for patients `A` and `B`
on every query. -/
def deliveredABEngine : Engine :=
  fun _ => Except.ok (some { total_rows := 2, rows := some [rowA, rowB] })

/-- The input entities of the spec example: identifiers `[A, C, B, D]`. -/
def abcdObjects : List PatientObj :=
  [{ patient_id := "A" }, { patient_id := "C" }, { patient_id := "B" }, { patient_id := "D" }]

/-! ### Helper lemmas about `chunk` -/

theorem chunkGo_congr {α : Type} (size : Nat) (hs : 0 < size) (fuel : Nat) :
    ∀ items : List α, items.length ≤ fuel →
      chunkGo size fuel items = chunkGo size items.length items := by
  induction fuel using Nat.strong_induction_on with
  | _ fuel ih =>
    intro items hle
    cases items with
    | nil => cases fuel <;> rfl
    | cons a as =>
      cases fuel with
      | zero => simp at hle
      | succ n =>
        simp only [List.length_cons] at hle
        simp only [chunkGo, List.length_cons]
        have h1 : ((a :: as).drop size).length ≤ n := by
          simp only [List.length_drop, List.length_cons]; omega
        have h2 : ((a :: as).drop size).length ≤ as.length := by
          simp only [List.length_drop, List.length_cons]; omega
        rw [ih n (by omega) _ h1, ih as.length (by omega) _ h2]

theorem chunk_nil {α : Type} (L : Nat) : chunk ([] : List α) L = [] := by
  unfold chunk chunkGo
  split <;> rfl

theorem chunk_cons {α : Type} (a : α) (as : List α) (L : Nat) (hL : 0 < L) :
    chunk (a :: as) L = (a :: as).take L :: chunk ((a :: as).drop L) L := by
  unfold chunk
  rw [if_neg (by omega), if_neg (by omega)]
  simp only [List.length_cons, chunkGo]
  rw [chunkGo_congr L hL as.length ((a :: as).drop L)
    (by simp only [List.length_drop, List.length_cons]; omega)]

theorem chunk_eq_of_ne_nil {α : Type} (ids : List α) (L : Nat) (h : ids ≠ [])
    (hL : 0 < L) : chunk ids L = ids.take L :: chunk (ids.drop L) L := by
  cases ids with
  | nil => exact absurd rfl h
  | cons a as => exact chunk_cons a as L hL

theorem chunk_flatten {α : Type} (L : Nat) (hL : 0 < L) (ids : List α) :
    (chunk ids L).flatten = ids := by
  have H : ∀ n : Nat, ∀ ids : List α, ids.length = n → (chunk ids L).flatten = ids := by
    intro n
    induction n using Nat.strong_induction_on with
    | _ n ih =>
      intro ids hn
      cases ids with
      | nil => simp [chunk_nil]
      | cons a as =>
        rw [chunk_cons a as L hL, List.flatten_cons]
        have hlt : ((a :: as).drop L).length < n := by
          subst hn
          simp only [List.length_drop, List.length_cons]
          omega
        rw [ih _ hlt _ rfl]
        exact List.take_append_drop L (a :: as)
  exact H ids.length ids rfl

theorem chunk_length {α : Type} (L : Nat) (hL : 0 < L) (ids : List α) :
    (chunk ids L).length = (ids.length + L - 1) / L := by
  have H : ∀ n : Nat, ∀ ids : List α, ids.length = n →
      (chunk ids L).length = (ids.length + L - 1) / L := by
    intro n
    induction n using Nat.strong_induction_on with
    | _ n ih =>
      intro ids hn
      cases ids with
      | nil =>
        simp only [chunk_nil, List.length_nil]
        rw [Nat.div_eq_of_lt (by omega)]
      | cons a as =>
        rw [chunk_cons a as L hL]
        have hlt : ((a :: as).drop L).length < n := by
          subst hn
          simp only [List.length_drop, List.length_cons]
          omega
        have hrec := ih _ hlt ((a :: as).drop L) rfl
        simp only [List.length_cons, List.length_drop] at hrec ⊢
        rw [hrec]
        rcases le_or_lt (as.length + 1) L with hle | hgt
        · have hz : as.length + 1 - L = 0 := by omega
          rw [hz]
          have h1 : (as.length + 1 + L - 1) / L = 1 := by
            apply Nat.div_eq_of_lt_le <;> omega
          rw [h1, Nat.div_eq_of_lt (by omega)]
        · have hsplit : as.length + 1 + L - 1 = (as.length + 1 - L + L - 1) + L := by
            omega
          rw [hsplit, Nat.add_div_right _ hL]
  exact H ids.length ids rfl

theorem chunk_mem_length_le {α : Type} (L : Nat) (hL : 0 < L) (ids : List α) :
    ∀ c ∈ chunk ids L, c.length ≤ L := by
  have H : ∀ n : Nat, ∀ ids : List α, ids.length = n → ∀ c ∈ chunk ids L, c.length ≤ L := by
    intro n
    induction n using Nat.strong_induction_on with
    | _ n ih =>
      intro ids hn
      cases ids with
      | nil => simp [chunk_nil]
      | cons a as =>
        rw [chunk_cons a as L hL]
        intro c hc
        rcases List.mem_cons.mp hc with hc | hc
        · subst hc
          simp only [List.length_take, List.length_cons]
          omega
        · have hlt : ((a :: as).drop L).length < n := by
            subst hn
            simp only [List.length_drop, List.length_cons]
            omega
          exact ih _ hlt _ rfl c hc
  exact H ids.length ids rfl

/-! ### Helper lemmas about `runChunks` -/

theorem runChunks_ok (engine : Engine) (baseQ : String) (inc : Bool)
    (cs : List (List String)) (res : List String → SearchResult) :
    ∀ memo : SearchResult,
    (∀ c ∈ cs, (fti engine (chunkQueryOptions baseQ inc c)).2 = Except.ok (res c)) →
    runChunks engine baseQ inc cs memo =
      (cs.map (fun c => ftiQuery (chunkQueryOptions baseQ inc c)),
       Except.ok { total_rows := memo.total_rows + (cs.map (fun c => (res c).total_rows)).sum,
                   rows := memo.rows ++ (cs.map (fun c => (res c).rows)).flatten }) := by
  induction cs with
  | nil =>
    intro memo h
    simp [runChunks]
  | cons c cs ih =>
    intro memo h
    have hc := h c (List.mem_cons_self c cs)
    have htl : ∀ d ∈ cs, (fti engine (chunkQueryOptions baseQ inc d)).2 = Except.ok (res d) :=
      fun d hd => h d (List.mem_cons_of_mem c hd)
    simp only [runChunks, hc]
    rw [ih { total_rows := memo.total_rows + (res c).total_rows,
             rows := memo.rows ++ (res c).rows } htl]
    simp [fti, Nat.add_assoc, List.append_assoc]

theorem runChunks_err (engine : Engine) (baseQ : String) (inc : Bool)
    (res : List String → SearchResult) (e : String) (c : List String)
    (cs₂ : List (List String))
    (herr : (fti engine (chunkQueryOptions baseQ inc c)).2 = Except.error e) :
    ∀ (cs₁ : List (List String)) (memo : SearchResult),
    (∀ d ∈ cs₁, (fti engine (chunkQueryOptions baseQ inc d)).2 = Except.ok (res d)) →
    runChunks engine baseQ inc (cs₁ ++ c :: cs₂) memo =
      ((cs₁ ++ [c]).map (fun d => ftiQuery (chunkQueryOptions baseQ inc d)),
       Except.error e) := by
  intro cs₁
  induction cs₁ with
  | nil =>
    intro memo h
    simp only [List.nil_append, runChunks, herr]
    simp [fti]
  | cons d ds ih =>
    intro memo h
    have hd := h d (List.mem_cons_self d ds)
    simp only [List.cons_append, runChunks, hd, List.append_eq]
    rw [ih { total_rows := memo.total_rows + (res d).total_rows,
             rows := memo.rows ++ (res d).rows }
      (fun x hx => h x (List.mem_cons_of_mem d hx))]
    simp [fti]

/-! ### Claim theorems -/

/-- C1: for a nonempty patient-identifier sequence and positive chunk limit
the executor partitions the sequence into exactly `ceil(N / L)` contiguous
order-preserving chunks of at most `L` identifiers, issues exactly one
query per chunk in chunk order, and the merged result concatenates the
per-chunk rows in chunk order while its `total_rows` sums the per-chunk
`total_rows`. -/
theorem ftiWithPatientIds_chunking (engine : Engine) (options : QueryOptions)
    (L : Nat) (ids : List String) (res : List String → SearchResult)
    (hids : options.patientIds = some ids) (hN : ids ≠ []) (hL : 0 < L)
    (hok : ∀ c ∈ chunk ids L,
      (fti engine (chunkQueryOptions options.q options.include_docs c)).2 = Except.ok (res c)) :
    (chunk ids L).length = (ids.length + L - 1) / L
    ∧ (chunk ids L).flatten = ids
    ∧ (∀ c ∈ chunk ids L, c.length ≤ L)
    ∧ ftiWithPatientIds engine L options =
        ((chunk ids L).map (fun c => ftiQuery (chunkQueryOptions options.q options.include_docs c)),
         Except.ok { total_rows := ((chunk ids L).map (fun c => (res c).total_rows)).sum,
                     rows := ((chunk ids L).map (fun c => (res c).rows)).flatten }) := by
  refine ⟨chunk_length L hL ids, chunk_flatten L hL ids, chunk_mem_length_le L hL ids, ?_⟩
  simp only [ftiWithPatientIds, hids]
  rw [if_neg (fun h => hN (List.length_eq_zero.mp h))]
  rw [runChunks_ok engine options.q options.include_docs (chunk ids L) res _ hok]
  simp

theorem ftiWithPatientIds_chunking_witness :
    ftiWithPatientIds okEngine 2
        { q := "form:D", include_docs := true, patientIds := some ["a", "b", "c"] } =
      ((chunk ["a", "b", "c"] 2).map (fun c => ftiQuery (chunkQueryOptions "form:D" true c)),
       Except.ok { total_rows := ((chunk ["a", "b", "c"] 2).map (fun c => (okRes c).total_rows)).sum,
                   rows := ((chunk ["a", "b", "c"] 2).map (fun c => (okRes c).rows)).flatten }) :=
  (ftiWithPatientIds_chunking okEngine
    { q := "form:D", include_docs := true, patientIds := some ["a", "b", "c"] }
    2 ["a", "b", "c"] okRes rfl (by decide) (by decide) (by decide)).2.2.2

/-- C6: if the engine call of some chunk fails, the executor stops after
that chunk (no query is issued for any later chunk), returns that very
error rather than any partial merged result, and performs no retry. -/
theorem ftiWithPatientIds_error_aborts (engine : Engine) (options : QueryOptions)
    (L : Nat) (ids : List String) (cs₁ cs₂ : List (List String)) (c : List String)
    (res : List String → SearchResult) (e : String)
    (hids : options.patientIds = some ids) (hN : ids ≠ [])
    (hchunks : chunk ids L = cs₁ ++ c :: cs₂)
    (hok : ∀ d ∈ cs₁,
      (fti engine (chunkQueryOptions options.q options.include_docs d)).2 = Except.ok (res d))
    (herr : (fti engine (chunkQueryOptions options.q options.include_docs c)).2 = Except.error e) :
    ftiWithPatientIds engine L options =
      ((cs₁ ++ [c]).map (fun d => ftiQuery (chunkQueryOptions options.q options.include_docs d)),
       Except.error e) := by
  simp only [ftiWithPatientIds, hids]
  rw [if_neg (fun h => hN (List.length_eq_zero.mp h))]
  rw [hchunks]
  exact runChunks_err engine options.q options.include_docs res e c cs₂ herr cs₁ _ hok

theorem ftiWithPatientIds_error_aborts_witness :
    ftiWithPatientIds failBEngine 1
        { q := "form:D", include_docs := true, patientIds := some ["a", "b", "c"] } =
      (([["a"]] ++ [["b"]]).map (fun d => ftiQuery (chunkQueryOptions "form:D" true d)),
       Except.error "index error") :=
  ftiWithPatientIds_error_aborts failBEngine
    { q := "form:D", include_docs := true, patientIds := some ["a", "b", "c"] }
    1 ["a", "b", "c"] [["a"]] [["c"]] ["b"] okRes "index error"
    rfl (by decide) (by decide) (by decide) (by decide)

/-- C4: when the options carry a present but empty patient-identifier
sequence, the chunked executor returns `{total_rows: 0, rows: []}` and
issues no query to the underlying search engine. -/
theorem ftiWithPatientIds_empty_short_circuit (engine : Engine) (L : Nat)
    (options : QueryOptions) (h : options.patientIds = some []) :
    ftiWithPatientIds engine L options =
      ([], Except.ok { total_rows := 0, rows := [] }) := by
  unfold ftiWithPatientIds
  rw [h]
  rfl

theorem ftiWithPatientIds_empty_short_circuit_witness :
    ftiWithPatientIds (fun _ => Except.error "engine down") 1000
      { q := "errors<int>:0", patientIds := some [] } =
      ([], Except.ok { total_rows := 0, rows := [] }) :=
  ftiWithPatientIds_empty_short_circuit (fun _ => Except.error "engine down") 1000
    { q := "errors<int>:0", patientIds := some [] } rfl

/-- C9: the `fti` wrapper substitutes `{total_rows: 0, rows: []}` for an
absent/null engine response, and substitutes an empty row sequence when the
response object lacks the row sequence, so the result always has both
fields populated. -/
theorem fti_substitutes_defaults (engine : Engine) (options : QueryOptions) :
    (engine (ftiQuery options) = Except.ok none →
      fti engine options = ([ftiQuery options], Except.ok { total_rows := 0, rows := [] }))
    ∧ (∀ t : Nat, engine (ftiQuery options) = Except.ok (some { total_rows := t, rows := none }) →
      fti engine options = ([ftiQuery options], Except.ok { total_rows := t, rows := [] })) := by
  constructor
  · intro h
    unfold fti
    rw [h]
  · intro t h
    unfold fti
    rw [h]
    rfl

theorem fti_substitutes_defaults_witness :
    fti (fun _ => Except.ok none) { q := "form:V" } =
      ([ftiQuery { q := "form:V" }], Except.ok { total_rows := 0, rows := [] })
    ∧ fti (fun _ => Except.ok (some { total_rows := 7, rows := none })) { q := "form:V" } =
      ([ftiQuery { q := "form:V" }], Except.ok { total_rows := 7, rows := [] }) :=
  ⟨(fti_substitutes_defaults (fun _ => Except.ok none) { q := "form:V" }).1 rfl,
   (fti_substitutes_defaults (fun _ => Except.ok (some { total_rows := 7, rows := none }))
     { q := "form:V" }).2 7 rfl⟩

/-- C5: `formatDateRange` depends only on the UTC day of its two date
arguments (time-of-day is discarded), its upper bound is the day after the
end date, and formatting the same pair twice yields identical fragments. -/
theorem formatDateRange_day_granularity (field : String) (s e t u : Int)
    (hs : s / 1440 = t / 1440) (he : e / 1440 = u / 1440) :
    formatDateRange field s e = formatDateRange field t u
    ∧ formatDateRange field s e =
        field ++ "<date>:[" ++ dayString (utcDay s) ++ " TO " ++
          dayString (utcDay e + 1) ++ "]"
    ∧ formatDateRange field s e = formatDateRange field s e := by
  have h1 : (e + 1440) / 1440 = e / 1440 + 1 := by omega
  have h2 : (u + 1440) / 1440 = u / 1440 + 1 := by omega
  simp only [formatDateRange, formatDate, utcDay]
  rw [h1, h2, hs, he]
  exact ⟨rfl, rfl, trivial⟩

theorem formatDateRange_day_granularity_witness :
    formatDateRange "reported_date" 100 1500 = formatDateRange "reported_date" 200 2000
    ∧ formatDateRange "reported_date" 100 1500 =
        "reported_date" ++ "<date>:[" ++ dayString (utcDay 100) ++ " TO " ++
          dayString (utcDay 1500 + 1) ++ "]"
    ∧ formatDateRange "reported_date" 100 1500 = formatDateRange "reported_date" 100 1500 :=
  formatDateRange_day_granularity "reported_date" 100 1500 200 2000 (by decide) (by decide)

/-- C3: an LMP-based record whose LMP date is exactly 10 whole weeks before
now yields 8 non-approximate weeks pregnant (10 minus the 2-week clinical
adjustment); a reported-date record reported exactly 6 whole weeks ago
yields 6 approximate weeks. -/
theorem getWeeksPregnant_examples (now : Int) :
    getWeeksPregnant now { form := "P", lmp_date := now - 70 * 1440 } =
      { number := 8, approximate := false }
    ∧ getWeeksPregnant now { form := "R", reported_date := now - 42 * 1440 } =
      { number := 6, approximate := true } := by
  have hl : now - (now - 70 * 1440) = 100800 := by omega
  have hr : now - (now - 42 * 1440) = 60480 := by omega
  constructor
  · simp only [getWeeksPregnant, diffWeeks]
    rw [if_neg (by decide)]
    rw [hl]
    decide
  · simp only [getWeeksPregnant, diffWeeks, if_true]
    rw [hr]
    decide

theorem getWeeksPregnant_examples_witness :
    getWeeksPregnant 0 { form := "P", lmp_date := 0 - 70 * 1440 } =
      { number := 8, approximate := false }
    ∧ getWeeksPregnant 0 { form := "R", reported_date := 0 - 42 * 1440 } =
      { number := 6, approximate := true } :=
  getWeeksPregnant_examples 0

/-- C2 counterexample: for an LMP-based record with LMP date 2020-01-01,
the due date computed by `getEDD` falls on 2020-10-21, not on 2020-10-28 as
the claim states. -/
theorem getEDD_lmp_2020_counterexample :
    civilFromDays (utcDay (getEDD { form := "P", lmp_date := daysFromCivil 2020 1 1 * 1440 }).date) ≠ (2020, 10, 28) := by
  decide

/-- C2 (amended): for an LMP-based record with LMP date 2020-01-01,
`getEDD` returns LMP plus 42 weeks, which is the day 2020-10-21, and the
result is not flagged approximate. -/
theorem getEDD_lmp_2020 :
    getEDD { form := "P", lmp_date := daysFromCivil 2020 1 1 * 1440 } =
      { date := daysFromCivil 2020 10 21 * 1440, approximate := false }
    ∧ civilFromDays (utcDay (getEDD { form := "P", lmp_date := daysFromCivil 2020 1 1 * 1440 }).date) = (2020, 10, 21) := by
  decide

/-! ### Helper lemmas for the joins -/

theorem beq_comm_str (a b : String) : (a == b) = (b == a) := by
  by_cases h : a = b
  · subst h; rfl
  · rw [beq_eq_false_iff_ne.mpr h, beq_eq_false_iff_ne.mpr (Ne.symm h)]

theorem any_beq_eq_contains_map (rows : List Row) (x : String) :
    rows.any (fun d => d.doc.patient_id == x) =
      (rows.map (fun d => d.doc.patient_id)).contains x := by
  induction rows with
  | nil => rfl
  | cons r rs ih =>
    simp only [List.any_cons, List.map_cons, List.contains_cons]
    rw [ih, beq_comm_str]

/-- C7: `rejectDeliveries` keeps exactly the entities whose identifier does
not appear among the delivery rows fetched for the input identifiers, in
their original relative order (the result is a sublist of the input), and
an empty input yields an empty result with no query issued. -/
theorem rejectDeliveries_spec (engine : Engine) (fc : FormCodes) (L : Nat)
    (objects : List PatientObj) (deliveries : SearchResult)
    (hne : objects ≠ [])
    (hok : (getDeliveries engine fc L
        { patientIds := some (objects.map (fun o => o.patient_id)),
          include_docs := true }).2 = Except.ok deliveries) :
    (rejectDeliveries engine fc L objects).2 =
      Except.ok (objects.filter (fun o =>
        !((deliveries.rows.map (fun d => d.doc.patient_id)).contains o.patient_id)))
    ∧ (∀ out, (rejectDeliveries engine fc L objects).2 = Except.ok out → out.Sublist objects)
    ∧ rejectDeliveries engine fc L [] = ([], Except.ok []) := by
  have hlen : ¬ objects.length = 0 := fun h => hne (List.length_eq_zero.mp h)
  have h1 : (rejectDeliveries engine fc L objects).2 =
      Except.ok (objects.filter (fun o =>
        !(deliveries.rows.any (fun d => d.doc.patient_id == o.patient_id)))) := by
    unfold rejectDeliveries
    rw [if_neg hlen]
    simp only [hok]
  have hfun : (fun o : PatientObj =>
      !(deliveries.rows.any (fun d => d.doc.patient_id == o.patient_id))) =
      (fun o : PatientObj =>
        !((deliveries.rows.map (fun d => d.doc.patient_id)).contains o.patient_id)) :=
    funext fun o => congrArg Bool.not (any_beq_eq_contains_map deliveries.rows o.patient_id)
  refine ⟨by rw [h1, hfun], ?_, rfl⟩
  intro out hout
  rw [h1] at hout
  injection hout with hh
  rw [← hh]
  exact List.filter_sublist objects

theorem rejectDeliveries_spec_witness :
    (rejectDeliveries deliveredABEngine (fun _ => "D") 2 abcdObjects).2 =
      Except.ok (abcdObjects.filter (fun o =>
        !((({ total_rows := 4, rows := [rowA, rowB, rowA, rowB] } : SearchResult).rows.map
            (fun d => d.doc.patient_id)).contains o.patient_id)))
    ∧ (rejectDeliveries deliveredABEngine (fun _ => "D") 2 abcdObjects).2 =
      Except.ok [{ patient_id := "C" }, { patient_id := "D" }] := by
  have H := (rejectDeliveries_spec deliveredABEngine (fun _ => "D") 2 abcdObjects
    { total_rows := 4, rows := [rowA, rowB, rowA, rowB] } (by decide) (by decide)).1
  exact ⟨H, H.trans (by decide)⟩

/-- The per-entity relationship established by `injectRisk`: an output
entity is the corresponding input entity either untouched or with
`high_risk` set to `true`; no other change is possible. -/
def riskRel (o o2 : PatientObj) : Prop :=
  o2 = o ∨ o2 = { o with high_risk := some true }

theorem riskRel_refl (l : List PatientObj) : List.Forall₂ riskRel l l := by
  induction l with
  | nil => exact List.Forall₂.nil
  | cons o os ih => exact List.Forall₂.cons (Or.inl rfl) ih

theorem riskRel_trans {a b c : PatientObj} (h1 : riskRel a b) (h2 : riskRel b c) :
    riskRel a c := by
  rcases h1 with rfl | rfl
  · exact h2
  · rcases h2 with rfl | rfl
    · exact Or.inr rfl
    · exact Or.inr rfl

theorem forall2_riskRel_trans :
    ∀ {a b c : List PatientObj}, List.Forall₂ riskRel a b →
      List.Forall₂ riskRel b c → List.Forall₂ riskRel a c := by
  intro a b c h1
  induction h1 generalizing c with
  | nil =>
    intro h2
    cases h2
    exact List.Forall₂.nil
  | cons hab h1 ih =>
    intro h2
    cases h2 with
    | cons hbc h2 => exact List.Forall₂.cons (riskRel_trans hab hbc) (ih h2)

theorem markFirst_forall2 (pid : String) (objs : List PatientObj) :
    List.Forall₂ riskRel objs (markFirst pid objs) := by
  induction objs with
  | nil => exact List.Forall₂.nil
  | cons o os ih =>
    by_cases h : o.patient_id = pid
    · simp only [markFirst, if_pos h]
      exact List.Forall₂.cons (Or.inr rfl) (riskRel_refl os)
    · simp only [markFirst, if_neg h]
      exact List.Forall₂.cons (Or.inl rfl) ih

theorem applyRisks_forall2 (rows : List Row) :
    ∀ objs : List PatientObj, List.Forall₂ riskRel objs (applyRisks rows objs) := by
  induction rows with
  | nil => intro objs; exact riskRel_refl objs
  | cons r rs ih =>
    intro objs
    exact forall2_riskRel_trans (markFirst_forall2 r.doc.patient_id objs)
      (ih (markFirst r.doc.patient_id objs))

theorem markFirst_get?_of_ne (pid : String) :
    ∀ (objs : List PatientObj) (i : Nat) (o : PatientObj),
      objs[i]? = some o → o.patient_id ≠ pid → (markFirst pid objs)[i]? = some o := by
  intro objs
  induction objs with
  | nil => intro i o h; simp at h
  | cons a as ih =>
    intro i o h hne
    by_cases ha : a.patient_id = pid
    · simp only [markFirst, if_pos ha]
      cases i with
      | zero =>
        simp only [List.getElem?_cons_zero] at h
        injection h with h
        subst h
        exact absurd ha hne
      | succ n => simpa using h
    · simp only [markFirst, if_neg ha]
      cases i with
      | zero => simpa using h
      | succ n =>
        simp only [List.getElem?_cons_succ] at h ⊢
        exact ih n o h hne

theorem applyRisks_get?_of_not_mem (rows : List Row) :
    ∀ (objs : List PatientObj) (i : Nat) (o : PatientObj),
      objs[i]? = some o →
      (∀ r ∈ rows, r.doc.patient_id ≠ o.patient_id) →
      (applyRisks rows objs)[i]? = some o := by
  induction rows with
  | nil => intro objs i o h _; exact h
  | cons r rs ih =>
    intro objs i o h hr
    have h1 := markFirst_get?_of_ne r.doc.patient_id objs i o h
      (fun hh => hr r (List.mem_cons_self r rs) hh.symm)
    exact ih (markFirst r.doc.patient_id objs) i o h1
      (fun r2 hr2 => hr r2 (List.mem_cons_of_mem r hr2))

theorem markFirst_first_match (pid : String) :
    ∀ (objs : List PatientObj) (j : Nat) (o : PatientObj),
      objs[j]? = some o → o.patient_id = pid →
      (∀ o2 ∈ objs.take j, o2.patient_id ≠ pid) →
      markFirst pid objs = objs.set j { o with high_risk := some true } := by
  intro objs
  induction objs with
  | nil => intro j o h; simp at h
  | cons a as ih =>
    intro j o h ho hprev
    cases j with
    | zero =>
      simp only [List.getElem?_cons_zero] at h
      injection h with h
      subst h
      simp only [markFirst, if_pos ho, List.set_cons_zero]
    | succ n =>
      have ha : a.patient_id ≠ pid := by
        apply hprev
        simp [List.take_cons]
      simp only [List.getElem?_cons_succ] at h
      rw [List.set_cons_succ]
      simp only [markFirst, if_neg ha]
      rw [ih n o h ho (fun o2 ho2 => hprev o2 (by simp [List.take_cons, ho2]))]

/-- C8: (1) whenever `injectRisk` succeeds, each output entity is the
corresponding input entity either unchanged or with `high_risk` set to
`true` (so `high_risk` is never set to `false` or cleared, and the input
sequence is neither shortened nor reordered); (2) an entity whose
identifier matches no fetched flag row is left unmodified at its position;
(3) each flag row marks exactly the first entity sharing its patient
identifier. -/
theorem injectRisk_frame :
    (∀ (engine : Engine) (fc : FormCodes) (L : Nat) (objects out : List PatientObj),
      (injectRisk engine fc L objects).2 = Except.ok out →
      List.Forall₂ riskRel objects out)
    ∧ (∀ (rows : List Row) (objects : List PatientObj) (i : Nat) (o : PatientObj),
      objects[i]? = some o →
      o.patient_id ∉ rows.map (fun r => r.doc.patient_id) →
      (applyRisks rows objects)[i]? = some o)
    ∧ (∀ (pid : String) (objects : List PatientObj) (j : Nat) (o : PatientObj),
      objects[j]? = some o → o.patient_id = pid →
      (∀ o2 ∈ objects.take j, o2.patient_id ≠ pid) →
      markFirst pid objects = objects.set j { o with high_risk := some true }) := by
  refine ⟨?_, ?_, ?_⟩
  · intro engine fc L objects out h
    cases hc : (getHighRisk engine fc L
        (some { patientIds := some (objects.map (fun o => o.patient_id)) })).2 with
    | error e =>
      simp only [injectRisk, hc] at h
      exact Except.noConfusion h
    | ok v =>
      simp only [injectRisk, hc] at h
      injection h with h
      rw [← h]
      exact applyRisks_forall2 (rowsOf v) objects
  · intro rows objects i o h hmem
    apply applyRisks_get?_of_not_mem rows objects i o h
    intro r hr heq
    exact hmem (List.mem_map.mpr ⟨r, hr, heq⟩)
  · intro pid objects j o h ho hprev
    exact markFirst_first_match pid objects j o h ho hprev

theorem injectRisk_frame_witness :
    List.Forall₂ riskRel abcdObjects
      [{ patient_id := "A", high_risk := some true }, { patient_id := "C" },
        { patient_id := "B", high_risk := some true }, { patient_id := "D" }]
    ∧ (applyRisks [rowA] [{ patient_id := "C" }])[0]? = some { patient_id := "C" }
    ∧ markFirst "B" abcdObjects =
        abcdObjects.set 2 { patient_id := "B", high_risk := some true } := by
  refine ⟨?_, ?_, ?_⟩
  · exact injectRisk_frame.1 deliveredABEngine (fun _ => "F") 1000 abcdObjects
      [{ patient_id := "A", high_risk := some true }, { patient_id := "C" },
        { patient_id := "B", high_risk := some true }, { patient_id := "D" }] (by decide)
  · exact injectRisk_frame.2.1 [rowA] [{ patient_id := "C" }] 0 { patient_id := "C" }
      (by decide) (by decide)
  · exact injectRisk_frame.2.2 "B" abcdObjects 2 { patient_id := "B" } (by decide)
      (by decide) (by decide)

/-- C10: with an absent options object, an absent patient filter, or an
empty patient filter, `getVisits` and `getHighRisk` hand the callback the
plain empty array `[]` without issuing any engine query — a value of a
different shape from the chunked executor's own empty-filter result
`{total_rows: 0, rows: []}`. -/
theorem emptyFilter_plain_array (engine : Engine) (fc : FormCodes) (L : Nat)
    (now : Int) (opts : Option QueryOptions) (h : noPatientFilter opts = true) :
    getVisits engine fc L now opts = ([], Except.ok (FtiValue.arr []))
    ∧ getHighRisk engine fc L opts = ([], Except.ok (FtiValue.arr []))
    ∧ FtiValue.arr [] ≠ FtiValue.res { total_rows := 0, rows := [] } := by
  refine ⟨?_, ?_, fun hh => FtiValue.noConfusion hh⟩
  · cases opts with
    | none => rfl
    | some o =>
      cases hp : o.patientIds with
      | none => simp only [getVisits, hp]
      | some l =>
        cases l with
        | nil => simp only [getVisits, hp]
        | cons p ps => simp [noPatientFilter, hp] at h
  · cases opts with
    | none => rfl
    | some o =>
      cases hp : o.patientIds with
      | none => simp only [getHighRisk, hp]
      | some l =>
        cases l with
        | nil => simp only [getHighRisk, hp]
        | cons p ps => simp [noPatientFilter, hp] at h

theorem emptyFilter_plain_array_witness :
    getVisits okEngine (fun _ => "V") 1000 0 (some { patientIds := some [] }) =
      ([], Except.ok (FtiValue.arr []))
    ∧ getHighRisk okEngine (fun _ => "V") 1000 (some { patientIds := some [] }) =
      ([], Except.ok (FtiValue.arr []))
    ∧ FtiValue.arr [] ≠ FtiValue.res { total_rows := 0, rows := [] } :=
  emptyFilter_plain_array okEngine (fun _ => "V") 1000 0
    (some { patientIds := some [] }) rfl

end ChtQuery
